import Mathlib

/-!
Verification of the repository model of pubtools-pulplib
(`src/pubtools/pulplib/_impl/model/repository/base.py`).

The Python code is shallowly embedded: pure helpers become Lean functions,
the asynchronous future chains (`f_map` / `f_flat_map` from more_executors)
become explicit `Except`-valued computations threaded with a trace of the
remote calls issued to the client collaborator, and Python `None` becomes
`Option.none`.  Collaborator code that lives outside `src/` (the attr codec
utilities, the Distributor class, the plugin hook manager, the fake client's
unassociate semantics) is modelled from the spec and marked as such in its
doc comment.
-/

namespace PubtoolsPulplib

/-- Raw (JSON-ish) leaf values appearing in remote payloads. -/
inductive RawVal
  | str (s : String)
  | bool (b : Bool)
  | int (i : Int)
  | strList (l : List String)
  deriving DecidableEq, Repr

/-- A flat string-keyed mapping, as used for distributor configs,
unit keys and sync payloads. -/
abbrev Config := List (String × RawVal)

/-- Nested mapping values, for the remote repository representation
addressed by dotted paths such as `notes.arch`. -/
inductive NVal
  | leaf (v : RawVal)
  | dict (entries : List (String × NVal))

/-- Split a character list on `'.'`, as Python's `"...".split(".")` does
(the empty string yields one empty component). Defined structurally so that
it computes inside the kernel, unlike `String.splitOn`. -/
def splitDot : List Char → List (List Char)
  | [] => [[]]
  | c :: rest =>
    match splitDot rest with
    | [] => []
    | grp :: grps => if c = '.' then [] :: grp :: grps else (c :: grp) :: grps

/-- `s.split(".")` on strings. -/
def splitDotStr (s : String) : List String :=
  (splitDot s.toList).map String.mk

/-- First value bound to `k` in an association list. -/
def assocFind (entries : List (String × NVal)) (k : String) : Option NVal :=
  match entries with
  | [] => none
  | (k', v) :: rest => if k' = k then some v else assocFind rest k

/-- Replace the first binding of `k` (or append a new one), preserving order. -/
def assocSet (entries : List (String × NVal)) (k : String) (v : NVal) :
    List (String × NVal) :=
  match entries with
  | [] => [(k, v)]
  | (k', v') :: rest =>
      if k' = k then (k, v) :: rest else (k', v') :: assocSet rest k v

/-- Walk a nested mapping along a list of path segments. -/
def walkPath (cur : NVal) (segs : List String) : Option NVal :=
  match segs with
  | [] => some cur
  | seg :: rest =>
      match cur with
      | NVal.dict entries =>
          match assocFind entries seg with
          | some v => walkPath v rest
          | none => none
      | NVal.leaf _ => none

/-- Modelled from the spec: `lookup` from `pubtools.pulplib._impl.util`
(not under `src/`): nested lookup of a dot-separated remote field path in a
nested mapping; a missing path yields the sentinel ABSENT, modelled here as
`Option.none`. -/
def lookup (data : NVal) (path : String) : Option NVal :=
  walkPath data (splitDotStr path)

/-- Assign a value at a list of path segments, creating intermediate dicts.
A path descending into a leaf is left unchanged (the Python code never
does this; it would raise). -/
def putSegs (cur : NVal) (segs : List String) (v : NVal) : NVal :=
  match segs with
  | [] => v
  | k :: rest =>
      match cur with
      | NVal.dict entries =>
          let child := (assocFind entries k).getD (NVal.dict [])
          NVal.dict (assocSet entries k (putSegs child rest v))
      | NVal.leaf _ => cur

/-- Modelled from the spec: `dict_put` from `pubtools.pulplib._impl.util`
(not under `src/`): assign a value into a nested mapping at a dot-separated
remote field path. -/
def dict_put (data : NVal) (path : String) (v : NVal) : NVal :=
  putSegs data (splitDotStr path) v

/-! ## `pv_converter` (base.py lines 139-157) -/

/-- No two consecutive underscores (Python's `int()` rejects `"1__0"`). -/
def noDoubleUnderscore (cs : List Char) : Bool :=
  match cs with
  | [] => true
  | [_] => true
  | a :: b :: rest => !(a = '_' && b = '_') && noDoubleUnderscore (b :: rest)

/-- Digit-group parsing as done by Python's `int()` on the part after the
optional sign: one or more ASCII digits, where single underscores may appear
between digits. -/
def pyDigits (cs : List Char) : Option Nat :=
  if cs ≠ [] && cs.all (fun c => c.isDigit || c = '_')
      && (cs.head?.getD '_').isDigit && (cs.getLast?.getD '_').isDigit
      && noDoubleUnderscore cs then
    some ((cs.filter Char.isDigit).foldl (fun acc c => acc * 10 + (c.toNat - '0'.toNat)) 0)
  else
    none

/-- Strip leading and trailing whitespace, as `int()` does before parsing. -/
def stripWs (cs : List Char) : List Char :=
  ((cs.dropWhile Char.isWhitespace).reverse.dropWhile Char.isWhitespace).reverse

/-- Python's `int(s)` on a string: strip surrounding whitespace, optional
sign, then digit groups; `none` models the `ValueError`. -/
def pyInt (s : String) : Option Int :=
  match stripWs s.toList with
  | '+' :: rest => (pyDigits rest).map Int.ofNat
  | '-' :: rest => (pyDigits rest).map (fun n => -(n : Int))
  | cs => (pyDigits cs).map Int.ofNat

/-- Python's comparison of two `list[int]` values: lexicographic. -/
def pyIntListLt (a b : List Int) : Bool :=
  match a, b with
  | [], [] => false
  | [], _ :: _ => true
  | _ :: _, [] => false
  | x :: xs, y :: ys => if x < y then true else if y < x then false else pyIntListLt xs ys

/-- Stable insertion into a sorted list: `x` goes before the first element
`y` with `¬ le x y` failing — i.e. before the first strictly greater
element, after all elements `≤` it.  Folding this from the right is a
stable sort, matching Python's `sorted`. -/
def insertSorted (le : α → α → Bool) (x : α) (l : List α) : List α :=
  match l with
  | [] => [x]
  | y :: ys => if le x y then x :: y :: ys else y :: insertSorted le x ys

/-- Stable sort (the behaviour of Python's `sorted`) with respect to a total
preorder given as a boolean `le`. -/
def pySorted (le : α → α → Bool) (l : List α) : List α :=
  l.foldr (insertSorted le) []

/-- A Python list comprehension over a fallible element function: `none` as
soon as any element raises. -/
def mapOption (f : α → Option β) (xs : List α) : Option (List β) :=
  match xs with
  | [] => some []
  | x :: rest =>
      match f x, mapOption f rest with
      | some y, some ys => some (y :: ys)
      | _, _ => none

/-- The sort key used by `pv_converter`:
`[int(c) for c in str(version).split(".")]`, `none` when any component
raises `ValueError`. -/
def pvKey (version : String) : Option (List Int) :=
  mapOption pyInt (splitDotStr version)

/-- `le` on version strings by their numeric component keys (used only when
every key parses). -/
def pvKeyLe (a b : String) : Bool :=
  !pyIntListLt ((pvKey b).getD []) ((pvKey a).getD [])

/-- Strict lexicographic comparison of character lists by code point,
Python's comparison of `str` values. -/
def pyStrLt (a b : List Char) : Bool :=
  match a, b with
  | [], [] => false
  | [], _ :: _ => true
  | _ :: _, [] => false
  | x :: xs, y :: ys => if x < y then true else if y < x then false else pyStrLt xs ys

/-- `le` on strings as Python compares `str` (lexicographic by code point). -/
def pyStrLe (a b : String) : Bool :=
  !pyStrLt b.toList a.toList

/-- `pv_converter` from base.py: sort a `product_versions` list numerically
by dotted components, falling back to a plain string sort when any component
of any element fails integer parsing (the `ValueError` branch).  Python
computes every element's key before comparing, so a single bad element sends
the whole list to the fallback. -/
def pv_converter (versions : List String) : List String :=
  if versions.all (fun v => (pvKey v).isSome) then
    pySorted pvKeyLe versions
  else
    pySorted pyStrLe versions

/-! ## Data model -/

/-- Modelled from the spec: the `Distributor` entity
(`pubtools.pulplib._impl.model.distributor`, not under `src/`): `id`,
`distributor_type_id`, a configuration mapping and the capability flag
`is_rsync`.  `repo_id` is optional, `none` modelling Python `None`. -/
structure Distributor where
  id : String
  distributor_type_id : String
  repo_id : Option String
  is_rsync : Bool
  deriving DecidableEq, Repr

/-- Python truthiness of `distributor.repo_id`: falsy when `None` or the
empty string. -/
def repoIdFalsy (r : Option String) : Bool :=
  match r with
  | none => true
  | some s => s = ""

/-- `PublishOptions` (base.py lines 38-74).  Every field defaults to `None`
("unspecified"), modelled as `Option`. -/
structure PublishOptions where
  force : Option Bool := none
  clean : Option Bool := none
  origin_only : Option Bool := none
  rsync_extra_args : Option (List String) := none
  deriving DecidableEq, Repr

/-- Python truthiness of an `Option Bool` field such as
`options.origin_only`: truthy exactly when `Some true`. -/
def optTruthy (b : Option Bool) : Bool :=
  match b with
  | some true => true
  | _ => false

/-- `SyncOptions` (base.py lines 77-136): `feed` is required, every other
field defaults to `None`. -/
structure SyncOptions where
  feed : String
  ssl_validation : Option Bool := none
  ssl_ca_cert : Option String := none
  ssl_client_cert : Option String := none
  ssl_client_key : Option String := none
  max_speed : Option Int := none
  proxy_host : Option String := none
  proxy_port : Option Int := none
  proxy_username : Option String := none
  proxy_password : Option String := none
  basic_auth_username : Option String := none
  basic_auth_password : Option String := none
  deriving DecidableEq, Repr

/-- The `Repository` entity's locally held field values (base.py lines
160-333).  Fields whose Python default is `None` are `Option`; `created` is
kept abstract as its raw timestamp string. -/
structure Repository where
  id : String
  type : Option String := none
  created : Option String := none
  distributors : List Distributor := []
  eng_product_id : Option Int := none
  relative_url : Option String := none
  mutable_urls : List String := []
  is_sigstore : Bool := false
  is_temporary : Bool := false
  signing_keys : List String := []
  skip_rsync_repodata : Bool := false
  content_set : Option String := none
  arch : Option String := none
  platform_full_version : Option String := none
  product_versions : Option (List String) := none
  include_in_download_service : Bool := false
  include_in_download_service_preview : Bool := false
  deriving DecidableEq, Repr

namespace Repository

/-- The fixed, ordered allow-list of distributor IDs activated on publish
(base.py lines 168-174). -/
def PUBLISH_DISTRIBUTORS : List String :=
  ["iso_distributor",
   "yum_distributor",
   "cdn_distributor",
   "cdn_distributor_unprotected",
   "docker_web_distributor_name_cli"]

/-- The `distributors` validator `_check_repo_id` (base.py lines 335-347).
Note the loop body `return`s (rather than continuing) as soon as the first
distributor has a falsy or matching `repo_id`, so only the head of the list
is ever inspected. -/
def check_repo_id (repoId : String) (value : List Distributor) :
    Except String Unit :=
  match value with
  | [] => Except.ok ()
  | distributor :: _ =>
      if repoIdFalsy distributor.repo_id then Except.ok ()
      else if distributor.repo_id = some repoId then Except.ok ()
      else Except.error ("repo_id does not match for " ++ distributor.id)

/-- Constructing a `Repository` runs the attrs validators; a validator
error surfaces as a construction-time error (the spec's
`ConfigurationError`). -/
def construct (r : Repository) : Except String Repository :=
  match check_repo_id r.id r.distributors with
  | Except.ok _ => Except.ok r
  | Except.error e => Except.error e

/-- `_distributors_by_id` (base.py lines 349-354): a Python dict built by
insertion, so for duplicate IDs the last distributor wins. -/
def distributorsById (ds : List Distributor) (did : String) : Option Distributor :=
  ds.foldl (fun acc d => if d.id = did then some d else acc) none

/-- `_config_for_distributor` (base.py lines 720-735): derive the
per-distributor config dict from `PublishOptions`, keys inserted in source
order. -/
def config_for_distributor (distributor : Distributor) (options : PublishOptions) :
    Config :=
  let out : Config := []
  let out := if distributor.is_rsync then
      let out := match options.clean with
        | some c => out ++ [("delete", RawVal.bool c)]
        | none => out
      let out := match options.origin_only with
        | some o => out ++ [("content_units_only", RawVal.bool o)]
        | none => out
      match options.rsync_extra_args with
        | some args => out ++ [("rsync_extra_args", RawVal.strList args)]
        | none => out
    else out
  match options.force with
  | some f => out ++ [("force_full", RawVal.bool f)]
  | none => out

/-- The distributor-selection loop of `publish` (base.py lines 535-554):
walk the allow-list in order, keep each distributor present on the repo,
skipping the docker web distributor when `origin_only` is truthy, and pair
it with its derived config. -/
def publishToPublish (repo : Repository) (options : PublishOptions) :
    List (Distributor × Config) :=
  PUBLISH_DISTRIBUTORS.filterMap (fun candidate =>
    match distributorsById repo.distributors candidate with
    | none => none
    | some distributor =>
        if distributor.id = "docker_web_distributor_name_cli"
            && optTruthy options.origin_only then
          none
        else
          some (distributor, config_for_distributor distributor options))

end Repository

/-! ## Field descriptors and the mutable-notes payload -/

/-- Does `s` begin with `pre`? Structural, kernel-computable. -/
def listBegins (pre s : List Char) : Bool :=
  match pre, s with
  | [], _ => true
  | _ :: _, [] => false
  | p :: ps, q :: qs => p = q && listBegins ps qs

/-- `s.startswith(pre)` on strings. -/
def strBegins (pre s : String) : Bool :=
  listBegins pre.toList s.toList

/-- One attrs field descriptor of `Repository`, as far as the claims need
it: the local name, the remote `pulp_field` dotted path (if any), and the
`mutable` flag (`PULP2_MUTABLE` metadata). -/
structure FieldDesc where
  name : String
  pulpField : Option String
  mutable : Bool
  deriving DecidableEq, Repr

/-- The field declarations of `Repository` (base.py lines 176-333), in
declaration order: each `pulp_attrib` call's `pulp_field` and `mutable`
arguments. -/
def repositoryFields : List FieldDesc :=
  [⟨"id", some "id", false⟩,
   ⟨"type", some "notes._repo-type", false⟩,
   ⟨"created", some "notes.created", false⟩,
   ⟨"distributors", some "distributors", false⟩,
   ⟨"eng_product_id", some "notes.eng_product", false⟩,
   ⟨"relative_url", none, false⟩,
   ⟨"mutable_urls", none, false⟩,
   ⟨"is_sigstore", none, false⟩,
   ⟨"is_temporary", some "notes.pub_temp_repo", false⟩,
   ⟨"signing_keys", some "notes.signatures", false⟩,
   ⟨"skip_rsync_repodata", none, false⟩,
   ⟨"content_set", some "notes.content_set", false⟩,
   ⟨"arch", some "notes.arch", false⟩,
   ⟨"platform_full_version", some "notes.platform_full_version", false⟩,
   ⟨"product_versions", some "notes.product_versions", true⟩,
   ⟨"include_in_download_service", some "notes.include_in_download_service", true⟩,
   ⟨"include_in_download_service_preview",
    some "notes.include_in_download_service_preview", true⟩]

/-- Python `str(bool)`, the `py_pulp_converter` of the download-service
flags. -/
def pyBoolStr (b : Bool) : String :=
  if b then "True" else "False"

/-- Modelled from the spec: the per-field `to_remote` conversion used by the
codec (`PulpObject._to_data` / `pulp_attrib`, not under `src/`): the local
value of each named field converted to its raw form, `none` when the value
is unknown/absent (Python `None`).  The exact raw shape of `distributors`
and `product_versions` does not affect any claim, only their presence. -/
def fieldRawValue (r : Repository) (name : String) : Option NVal :=
  if name = "id" then some (NVal.leaf (RawVal.str r.id))
  else if name = "type" then r.type.map (fun s => NVal.leaf (RawVal.str s))
  else if name = "created" then r.created.map (fun s => NVal.leaf (RawVal.str s))
  else if name = "distributors" then
    some (NVal.leaf (RawVal.strList (r.distributors.map Distributor.id)))
  else if name = "eng_product_id" then
    r.eng_product_id.map (fun i => NVal.leaf (RawVal.str (toString i)))
  else if name = "is_temporary" then some (NVal.leaf (RawVal.bool r.is_temporary))
  else if name = "signing_keys" then
    some (NVal.leaf (RawVal.str (String.intercalate "," r.signing_keys)))
  else if name = "content_set" then r.content_set.map (fun s => NVal.leaf (RawVal.str s))
  else if name = "arch" then r.arch.map (fun s => NVal.leaf (RawVal.str s))
  else if name = "platform_full_version" then
    r.platform_full_version.map (fun s => NVal.leaf (RawVal.str s))
  else if name = "product_versions" then
    r.product_versions.map (fun l => NVal.leaf (RawVal.strList l))
  else if name = "include_in_download_service" then
    some (NVal.leaf (RawVal.str (pyBoolStr r.include_in_download_service)))
  else if name = "include_in_download_service_preview" then
    some (NVal.leaf (RawVal.str (pyBoolStr r.include_in_download_service_preview)))
  else none

/-- Modelled from the spec: `encode` / `PulpObject._to_data` (not under
`src/`): for each field descriptor with a remote path, apply `to_remote`
to the local value (skipping absent values) and assign it into a nested
mapping at the dotted path. -/
def Repository.toData (r : Repository) : NVal :=
  repositoryFields.foldl (fun acc fld =>
    match fld.pulpField with
    | none => acc
    | some pf =>
        match fieldRawValue r fld.name with
        | none => acc
        | some v => dict_put acc pf v) (NVal.dict [])

/-- `_mutable_note_fields` (base.py lines 356-365): the fields whose
`pulp_field` starts with `notes.` and which are marked mutable. -/
def Repository.mutable_note_fields : List FieldDesc :=
  repositoryFields.filter (fun fld =>
    strBegins "notes." (fld.pulpField.getD "") && fld.mutable)

/-- `_mutable_notes` (base.py lines 367-386): serialize the repo, keep only
the mutable note fields whose raw value is present, and return the `notes`
portion of the filtered view. -/
def Repository.mutable_notes (r : Repository) : List (String × NVal) :=
  let selfRaw := r.toData
  let out := Repository.mutable_note_fields.foldl (fun acc fld =>
    match fld.pulpField with
    | none => acc
    | some pf =>
        match lookup selfRaw pf with
        | none => acc
        | some v => dict_put acc pf v) (NVal.dict [])
  match out with
  | NVal.dict entries =>
      match assocFind entries "notes" with
      | some (NVal.dict notesEntries) => notesEntries
      | _ => []
  | _ => []

/-- Zero or one association-list entries, for describing the shape of the
mutable-notes payload. -/
def optEntry (k : String) (o : Option NVal) : List (String × NVal) :=
  match o with
  | none => []
  | some v => [(k, v)]

/-! ## Client collaborator, call traces and the orchestrated operations -/

/-- Task / page / import-result payloads are carried through opaquely. -/
abbrev Task := Nat

abbrev Page := Nat

abbrev ImportResult := Nat

abbrev FileObj := String

/-- The `(size, checksum)` tuple returned by a real byte upload. -/
structure Descriptor where
  size : Nat
  checksum : String
  deriving DecidableEq, Repr

/-- The `{"upload_id": ...}` dict returned by `_request_upload`. -/
structure UploadResponse where
  upload_id : String
  deriving DecidableEq, Repr

/-- Modelled from the spec: `Matcher` (`pubtools.pulplib._impl.criteria`,
not under `src/`): field-equals and field-in predicates on a raw value.
(The spec's `and-of` combinator is not constructed by any code under
`src/` and is omitted.) -/
inductive Matcher
  | eqMatch (value : RawVal)
  | inMatch (values : List RawVal)
  deriving DecidableEq, Repr

/-- Modelled from the spec: `Criteria.with_field(field, matcher)`, the only
criteria shape base.py builds. -/
inductive Criteria
  | withField (field : String) (matcher : Matcher)
  deriving DecidableEq, Repr

/-- Errors surfaced by operations: `DetachedException` when no client is
attached, or a failure propagated from a remote call / task. -/
inductive PulpErr
  | detached
  | clientError (msg : String)
  deriving DecidableEq, Repr

/-- One remote call (or hook activation) issued while running an
operation, recorded in order. -/
inductive Event
  | searchRepoUnits (repoId : String) (criteria : Option Criteria)
  | publishDistributors (repoId : String) (toPublish : List (String × Config))
  | postPublishHook (repoId : String) (options : PublishOptions)
  | syncRepo (repoId : String) (payload : Config)
  | unassociate (repoId : String) (criteria : Option Criteria)
  | requestUpload (name : String)
  | uploadFile (uploadId : String) (name : String)
  | importUpload (repoId : String) (uploadId : String) (typeId : String)
      (unitKey : Config) (metadata : Option Config)
  | deleteUpload (uploadId : String) (name : String)
  deriving DecidableEq, Repr

/-- Modelled from the spec: the transport/session collaborator (§6), one
deterministic response per call shape.  Each call is also recorded as an
`Event` by the operation that issues it. -/
structure Client where
  searchRepoUnits : String → Option Criteria → Except PulpErr Page
  publishRepository : String → List (String × Config) → Except PulpErr (List Task)
  doSync : String → Config → Except PulpErr (List Task)
  doUnassociate : String → Option Criteria → Except PulpErr (List Task)
  requestUpload : String → Except PulpErr UploadResponse
  doUploadFile : String → FileObj → String → Except PulpErr Descriptor
  doImport : String → String → String → Config → Option Config →
      Except PulpErr ImportResult
  deleteUploadRequest : String → String → Except PulpErr Unit

/-- Modelled from the spec: one registered extension at the pre-publish
hook point (`pulp_repository_pre_publish`): receives the repository and
options, may return a replacement options object or nothing. -/
abbrev PrePublishHook := Repository → PublishOptions → Option PublishOptions

namespace Repository

/-- `search_content` (base.py lines 460-479): raise `DetachedException`
when no client is attached, otherwise one `_search_repo_units` call. -/
def search_content (client : Option Client) (repo : Repository)
    (criteria : Option Criteria) : Except PulpErr Page × List Event :=
  match client with
  | none => (Except.error PulpErr.detached, [])
  | some c =>
      (c.searchRepoUnits repo.id criteria, [Event.searchRepoUnits repo.id criteria])

/-- `publish` (base.py lines 500-565): detached check, pre-publish hook
(first non-None return replaces the options), distributor selection via the
allow-list, one `_publish_repository` call, and — only when it succeeds —
the post-publish hook with the adopted options. -/
def publish (client : Option Client) (hooks : List PrePublishHook)
    (repo : Repository) (options : PublishOptions) :
    Except PulpErr (List Task) × List Event :=
  match client with
  | none => (Except.error PulpErr.detached, [])
  | some c =>
      let hookRets := (hooks.map (fun h => h repo options)).filterMap (fun r => r)
      let options := hookRets.head?.getD options
      let toPublish := publishToPublish repo options
      let payload := toPublish.map (fun p => (p.1.id, p.2))
      match c.publishRepository repo.id payload with
      | Except.error e => (Except.error e, [Event.publishDistributors repo.id payload])
      | Except.ok tasks =>
          (Except.ok tasks,
           [Event.publishDistributors repo.id payload,
            Event.postPublishHook repo.id options])

/-- The outgoing sync payload:
`asdict(options, filter=lambda name, val: val is not None)` — every field
whose value is `None` is omitted, everything else is included under its
field name. -/
def sync_payload (options : SyncOptions) : Config :=
  ([("feed", some (RawVal.str options.feed)),
    ("ssl_validation", options.ssl_validation.map RawVal.bool),
    ("ssl_ca_cert", options.ssl_ca_cert.map RawVal.str),
    ("ssl_client_cert", options.ssl_client_cert.map RawVal.str),
    ("ssl_client_key", options.ssl_client_key.map RawVal.str),
    ("max_speed", options.max_speed.map RawVal.int),
    ("proxy_host", options.proxy_host.map RawVal.str),
    ("proxy_port", options.proxy_port.map RawVal.int),
    ("proxy_username", options.proxy_username.map RawVal.str),
    ("proxy_password", options.proxy_password.map RawVal.str),
    ("basic_auth_username", options.basic_auth_username.map RawVal.str),
    ("basic_auth_password", options.basic_auth_password.map RawVal.str)]
    : List (String × Option RawVal)).filterMap
      (fun p => p.2.map (fun v => (p.1, v)))

/-- `sync` (base.py lines 567-597): `options or SyncOptions(feed="")`
substitutes the default *before* the detached check; then one `_do_sync`
call with the filtered payload. -/
def sync (client : Option Client) (repo : Repository)
    (options : Option SyncOptions) : Except PulpErr (List Task) × List Event :=
  let options := options.getD { feed := "" }
  match client with
  | none => (Except.error PulpErr.detached, [])
  | some c =>
      (c.doSync repo.id (sync_payload options),
       [Event.syncRepo repo.id (sync_payload options)])

/-- `remove_content` (base.py lines 636-692): detached check; when no
criteria is given, the deprecated `type_ids` kwarg (if present) is turned
into a `content_type_id`-in criteria, otherwise the criteria stays `None`;
one `_do_unassociate` call carrying exactly that criteria. -/
def remove_content (client : Option Client) (repo : Repository)
    (criteria : Option Criteria) (type_ids : Option (List String)) :
    Except PulpErr (List Task) × List Event :=
  match client with
  | none => (Except.error PulpErr.detached, [])
  | some c =>
      let criteria := match criteria with
        | some cr => some cr
        | none =>
            match type_ids with
            | none => none
            | some tids =>
                some (Criteria.withField "content_type_id"
                  (Matcher.inMatch (tids.map RawVal.str)))
      (c.doUnassociate repo.id criteria, [Event.unassociate repo.id criteria])

/-- `_upload_then_import` (base.py lines 744-827) as an explicit chain.
The future combinators translate as: `f_map`/`f_flat_map` run their
callback only when the input future succeeded, and an error short-circuits
the rest of the chain; the delete step's output future is dropped on the
floor, so its outcome never reaches the returned handle, which is
`f_proxy(import_complete_f)` itself. -/
def upload_then_import (client : Option Client) (repo : Repository)
    (file_obj : Option FileObj) (name : String) (type_id : String)
    (unit_key_fn : Option (Option Descriptor → Config))
    (unit_metadata_fn : Option (Option Descriptor → Option Config)) :
    Except PulpErr ImportResult × List Event :=
  match client with
  | none => (Except.error PulpErr.detached, [])
  | some c =>
      -- unit_key_fn = unit_key_fn or (lambda _: {})
      let ukf := unit_key_fn.getD (fun _ => [])
      -- unit_metadata_fn = unit_metadata_fn or (lambda _: None)
      let umf := unit_metadata_fn.getD (fun _ => none)
      -- upload_id_f = f_map(_request_upload(name), upload["upload_id"])
      match c.requestUpload name with
      | Except.error e => (Except.error e, [Event.requestUpload name])
      | Except.ok upload =>
          let uploadId := upload.upload_id
          let log0 := [Event.requestUpload name]
          -- (the f_map that LOG.info's the upload id issues no remote call)
          let uploadStep :
              Except PulpErr (Option Descriptor) × List Event :=
            match file_obj with
            | none =>
                -- no bytes are uploaded; the upload is complete as soon as
                -- the upload id is known, with a forced None descriptor
                (Except.ok none, log0)
            | some f =>
                match c.doUploadFile uploadId f name with
                | Except.error e =>
                    (Except.error e, log0 ++ [Event.uploadFile uploadId name])
                | Except.ok d =>
                    (Except.ok (some d), log0 ++ [Event.uploadFile uploadId name])
          match uploadStep with
          | (Except.error e, log1) => (Except.error e, log1)
          | (Except.ok upl, log1) =>
              let unitKey := ukf upl
              let metadata := umf upl
              let log2 :=
                log1 ++ [Event.importUpload repo.id uploadId type_id unitKey metadata]
              match c.doImport repo.id uploadId type_id unitKey metadata with
              | Except.error e =>
                  -- import failed: the f_map-attached delete callback is
                  -- never invoked, because f_map skips its callback when
                  -- the input future failed
                  (Except.error e, log2)
              | Except.ok res =>
                  -- delete is issued; its own result is discarded
                  (Except.ok res, log2 ++ [Event.deleteUpload uploadId name])

end Repository

/-! ## Modelled unassociate semantics -/

/-- A content unit's raw fields. -/
abbrev ContentUnit := Config

/-- First value bound to `k` in a flat config mapping. -/
def configFind (cfg : Config) (k : String) : Option RawVal :=
  match cfg with
  | [] => none
  | (k', v) :: rest => if k' = k then some v else configFind rest k

/-- Does a matcher accept a raw value? -/
def matcherAccepts (m : Matcher) (v : RawVal) : Bool :=
  match m with
  | Matcher.eqMatch x => v = x
  | Matcher.inMatch xs => xs.contains v

/-- Does a criteria match a content unit? -/
def criteriaMatches (c : Criteria) (u : ContentUnit) : Bool :=
  match c with
  | Criteria.withField f m =>
      match configFind u f with
      | some v => matcherAccepts m v
      | none => false

/-- Modelled from the spec: the remote `unassociate_content` semantics
(`FakeClient._do_unassociate`, not under `src/`): every unit matching the
criteria is removed, and an absent criteria matches everything (no filter
means everything, not nothing).  Returns the units remaining. -/
def unassociateRemaining (units : List ContentUnit) (criteria : Option Criteria) :
    List ContentUnit :=
  units.filter (fun u =>
    !(match criteria with
      | none => true
      | some c => criteriaMatches c u))

/-! ## Concrete fixtures used by witnesses and counterexamples -/

/-- A client whose every call succeeds with a fixed response. -/
def okClient : Client where
  searchRepoUnits := fun _ _ => Except.ok 0
  publishRepository := fun _ _ => Except.ok [1]
  doSync := fun _ _ => Except.ok [2]
  doUnassociate := fun _ _ => Except.ok [3]
  requestUpload := fun _ => Except.ok ⟨"upload-1"⟩
  doUploadFile := fun _ _ _ => Except.ok ⟨10, "abc"⟩
  doImport := fun _ _ _ _ _ => Except.ok 7
  deleteUploadRequest := fun _ _ => Except.ok ()

/-- Like `okClient` but the import call fails. -/
def failingImportClient : Client :=
  { okClient with doImport := fun _ _ _ _ _ => Except.error (PulpErr.clientError "import failed") }

/-- Like `okClient` but the upload-slot delete call fails. -/
def deleteFailClient : Client :=
  { okClient with deleteUploadRequest := fun _ _ => Except.error (PulpErr.clientError "delete failed") }

/-- A repository whose first distributor has a falsy `repo_id` and whose
second carries a non-empty mismatched one. -/
def repoWithMismatchedSecond : Repository :=
  { id := "repo1",
    distributors :=
      [{ id := "dist1", distributor_type_id := "yum_distributor",
         repo_id := none, is_rsync := false },
       { id := "dist2", distributor_type_id := "yum_distributor",
         repo_id := some "other_repo", is_rsync := false }] }

/-- A concrete upload-then-import run whose import call fails. -/
def runWithFailingImport : Except PulpErr ImportResult × List Event :=
  Repository.upload_then_import (some failingImportClient) { id := "repo1" }
    none "erratum" "erratum" none none

/-- Probe derivation function recording whether it saw a descriptor. -/
def probeKeyFn (d : Option Descriptor) : Config :=
  [("saw_file", RawVal.bool d.isSome)]

/-- An extension returning nothing. -/
def hookNone : PrePublishHook := fun _ _ => none

/-- An extension replacing the options with a forced publish. -/
def hookForce : PrePublishHook := fun _ o => some { o with force := some true }

/-- An extension replacing the options with an origin-only publish. -/
def hookOrigin : PrePublishHook := fun _ _ => some { origin_only := some true }

/-- A yum distributor attached to repository `pub`. -/
def yumDist : Distributor :=
  { id := "yum_distributor", distributor_type_id := "yum_distributor",
    repo_id := some "pub", is_rsync := false }

/-- A docker web distributor attached to repository `pub`. -/
def dockerDist : Distributor :=
  { id := "docker_web_distributor_name_cli",
    distributor_type_id := "docker_distributor_web",
    repo_id := some "pub", is_rsync := false }

/-- A repository whose distributors list is in the opposite of allow-list
order. -/
def pubRepo : Repository :=
  { id := "pub", distributors := [dockerDist, yumDist] }

/-- A repository carrying a known `product_versions` value. -/
def pvRepo : Repository :=
  { id := "r", product_versions := some ["1.0"] }

/-! ## Claim theorems -/

/-- `isOk` on a success. -/
@[simp] theorem except_isOk_ok (a : α) : (Except.ok a : Except ε α).isOk = true := rfl

/-- `isOk` on a failure. -/
@[simp] theorem except_isOk_error (e : ε) :
    (Except.error e : Except ε α).isOk = false := rfl

/-- C4: for every detached Repository (no client reference), each of
`search_content`, `publish`, `sync` and `remove_content` fails with
`DetachedException` and issues no remote call at all (empty trace). -/
theorem detached_rejects_before_remote_call :
    ∀ (repo : Repository) (criteria : Option Criteria)
      (hooks : List PrePublishHook) (popts : PublishOptions)
      (sopts : Option SyncOptions) (tids : Option (List String)),
      Repository.search_content none repo criteria
          = (Except.error PulpErr.detached, []) ∧
        Repository.publish none hooks repo popts
          = (Except.error PulpErr.detached, []) ∧
        Repository.sync none repo sopts
          = (Except.error PulpErr.detached, []) ∧
        Repository.remove_content none repo criteria tids
          = (Except.error PulpErr.detached, []) :=
  fun _ _ _ _ _ _ => ⟨rfl, rfl, rfl, rfl⟩

/-- `pvKey` parses iff every dotted component of the version parses as an
integer. -/
theorem pvKey_isSome_iff (v : String) :
    (pvKey v).isSome = (splitDotStr v).all (fun c => (pyInt c).isSome) := by
  unfold pvKey
  induction splitDotStr v with
  | nil => rfl
  | cons a as ih =>
      cases h : pyInt a with
      | none =>
          cases h2 : mapOption pyInt as with
          | none => simp [mapOption, h, h2]
          | some l => simp [mapOption, h, h2]
      | some i =>
          cases h2 : mapOption pyInt as with
          | none =>
              have hall : as.all (fun c => (pyInt c).isSome) = false := by
                rw [← ih, h2]; rfl
              simp [mapOption, h, h2, hall]
          | some l =>
              have hall : as.all (fun c => (pyInt c).isSome) = true := by
                rw [← ih, h2]; rfl
              simp [mapOption, h, h2, hall]

/-- C6: `pv_converter` sorts component-wise numerically when every element
splits on `.` into integer-parsable components, falls back to a plain
lexicographic string sort when any component of any element fails integer
parsing, and in particular maps `["8.8","8.10","abc"]` to
`["8.10","8.8","abc"]` and `["8.8","8.10"]` to `["8.8","8.10"]`. -/
theorem pv_converter_spec :
    (∀ versions : List String,
        (∀ v ∈ versions, ∀ c ∈ splitDotStr v, (pyInt c).isSome = true) →
          pv_converter versions = pySorted pvKeyLe versions) ∧
      (∀ versions : List String, ∀ v ∈ versions, ∀ c ∈ splitDotStr v,
        pyInt c = none → pv_converter versions = pySorted pyStrLe versions) ∧
      pv_converter ["8.8", "8.10", "abc"] = ["8.10", "8.8", "abc"] ∧
      pv_converter ["8.8", "8.10"] = ["8.8", "8.10"] := by
  refine ⟨?_, ?_, by decide, by decide⟩
  · intro versions h
    have hall : versions.all (fun v => (pvKey v).isSome) = true := by
      rw [List.all_eq_true]
      intro v hv
      rw [pvKey_isSome_iff, List.all_eq_true]
      exact fun c hc => h v hv c hc
    simp [pv_converter, hall]
  · intro versions v hv c hc hnone
    have hbad : (pvKey v).isSome = false := by
      rw [pvKey_isSome_iff, List.all_eq_false]
      exact ⟨c, hc, by simp [hnone]⟩
    have hall : versions.all (fun v => (pvKey v).isSome) = false := by
      rw [List.all_eq_false]
      exact ⟨v, hv, by simp [hbad]⟩
    simp [pv_converter, hall]

/-- C6 witness: the numeric branch applied at a concrete input where a
plain string sort would give a different answer. -/
theorem pv_converter_spec_witness :
    pv_converter ["10", "9"] = pySorted pvKeyLe ["10", "9"] ∧
      pySorted pvKeyLe ["10", "9"] = ["9", "10"] :=
  ⟨pv_converter_spec.1 ["10", "9"] (by decide), by decide⟩

/-- C7: with a client attached, `remove_content` with no criteria (and no
deprecated `type_ids`) issues exactly one unassociate call carrying no
filter; under the modelled remote semantics an absent filter removes every
unit; and a supplied criteria is passed through exactly as given. -/
theorem remove_content_default_removes_everything :
    ∀ (c : Client) (repo : Repository) (cr : Criteria)
      (units : List ContentUnit),
      Repository.remove_content (some c) repo none none
          = (c.doUnassociate repo.id none, [Event.unassociate repo.id none]) ∧
        unassociateRemaining units none = [] ∧
        Repository.remove_content (some c) repo (some cr) none
          = (c.doUnassociate repo.id (some cr),
             [Event.unassociate repo.id (some cr)]) := by
  intro c repo cr units
  refine ⟨rfl, ?_, rfl⟩
  simp [unassociateRemaining]

/-- A key whose every binding in the option-pair table is `none` does not
occur in the filtered payload. -/
theorem optPairs_key_not_mem (k : String) (l : List (String × Option RawVal))
    (h : ∀ p ∈ l, p.1 = k → p.2 = none) :
    k ∉ (l.filterMap (fun p => p.2.map (fun v => (p.1, v)))).map Prod.fst := by
  induction l with
  | nil => simp
  | cons p rest ih =>
      cases hp : p.2 with
      | none =>
          simp only [List.filterMap_cons, hp, Option.map_none']
          exact ih (fun q hq => h q (List.mem_cons_of_mem p hq))
      | some v =>
          simp only [List.filterMap_cons, hp, Option.map_some', List.map_cons,
            List.mem_cons]
          intro hor
          cases hor with
          | inl hk =>
              have := h p (List.mem_cons_self p rest) hk.symm
              rw [hp] at this
              exact Option.noConfusion this
          | inr hk => exact ih (fun q hq => h q (List.mem_cons_of_mem p hq)) hk

/-- C10: `sync` with options omitted substitutes `SyncOptions(feed="")`, so
the outgoing payload carries the key `feed` bound to the empty string; and
for any `SyncOptions`, `feed` is always present while every optional field
left as `None` is omitted from the payload entirely. -/
theorem sync_default_feed_payload :
    ∀ (c : Client) (repo : Repository),
      Repository.sync (some c) repo none
          = (c.doSync repo.id [("feed", RawVal.str "")],
             [Event.syncRepo repo.id [("feed", RawVal.str "")]]) ∧
        (∀ o : SyncOptions, ("feed", RawVal.str o.feed) ∈ Repository.sync_payload o) ∧
        (∀ o : SyncOptions,
          (o.ssl_validation = none →
            "ssl_validation" ∉ (Repository.sync_payload o).map Prod.fst) ∧
          (o.ssl_ca_cert = none →
            "ssl_ca_cert" ∉ (Repository.sync_payload o).map Prod.fst) ∧
          (o.ssl_client_cert = none →
            "ssl_client_cert" ∉ (Repository.sync_payload o).map Prod.fst) ∧
          (o.ssl_client_key = none →
            "ssl_client_key" ∉ (Repository.sync_payload o).map Prod.fst) ∧
          (o.max_speed = none →
            "max_speed" ∉ (Repository.sync_payload o).map Prod.fst) ∧
          (o.proxy_host = none →
            "proxy_host" ∉ (Repository.sync_payload o).map Prod.fst) ∧
          (o.proxy_port = none →
            "proxy_port" ∉ (Repository.sync_payload o).map Prod.fst) ∧
          (o.proxy_username = none →
            "proxy_username" ∉ (Repository.sync_payload o).map Prod.fst) ∧
          (o.proxy_password = none →
            "proxy_password" ∉ (Repository.sync_payload o).map Prod.fst) ∧
          (o.basic_auth_username = none →
            "basic_auth_username" ∉ (Repository.sync_payload o).map Prod.fst) ∧
          (o.basic_auth_password = none →
            "basic_auth_password" ∉ (Repository.sync_payload o).map Prod.fst)) := by
  intro c repo
  refine ⟨rfl, ?_, ?_⟩
  · intro o
    simp only [Repository.sync_payload, List.filterMap_cons, Option.map_some',
      List.mem_cons]
    exact Or.inl trivial
  · intro o
    refine ⟨?_, ?_, ?_, ?_, ?_, ?_, ?_, ?_, ?_, ?_, ?_⟩ <;>
      · intro h
        apply optPairs_key_not_mem
        intro p hp hk
        fin_cases hp <;> simp_all

/-- C10 witness: the concrete default-options sync and a concrete omission. -/
theorem sync_default_feed_payload_witness :
    Repository.sync (some okClient) { id := "r" } none
        = (okClient.doSync "r" [("feed", RawVal.str "")],
           [Event.syncRepo "r" [("feed", RawVal.str "")]]) ∧
      "ssl_validation" ∉ (Repository.sync_payload { feed := "f" }).map Prod.fst := by
  have h := sync_default_feed_payload okClient { id := "r" }
  exact ⟨h.1, ((h.2.2 { feed := "f" }).1) rfl⟩

/-- C1 counterexample: construction succeeds although the second
distributor carries a non-empty `repo_id` differing from the repository id,
because the validator's loop body returns as soon as the first distributor
passes. -/
theorem construct_accepts_mismatched_second_distributor :
    (Repository.construct repoWithMismatchedSecond).isOk = true ∧
      ∃ d ∈ repoWithMismatchedSecond.distributors,
        repoIdFalsy d.repo_id = false ∧
          d.repo_id ≠ some repoWithMismatchedSecond.id := by decide

/-- C1 (amended): construction only inspects the first distributor — it is
rejected iff the distributors list is non-empty and its head carries a
non-empty `repo_id` differing from the repository id; every later
distributor is accepted unchecked. -/
theorem construct_checks_first_distributor_only :
    ∀ (r : Repository),
      (Repository.construct r).isOk = false ↔
        ∃ d rest, r.distributors = d :: rest ∧
          repoIdFalsy d.repo_id = false ∧ d.repo_id ≠ some r.id := by
  intro r
  cases hds : r.distributors with
  | nil => simp [Repository.construct, Repository.check_repo_id, hds]
  | cons d rest =>
      by_cases h1 : repoIdFalsy d.repo_id = true
      · simp [Repository.construct, Repository.check_repo_id, hds, h1]
      · by_cases h2 : d.repo_id = some r.id
        · simp [Repository.construct, Repository.check_repo_id, hds, h1, h2]
        · simp only [Repository.construct, Repository.check_repo_id, hds,
            Bool.not_eq_true] at h1 ⊢
          simp [h1, h2]

/-- C3 counterexample: when the import step completes with a failure, no
delete of the upload slot is ever issued — the cleanup callback hangs off
`f_map(import_complete_f, ...)`, which skips its callback when the input
future failed. -/
theorem upload_then_import_no_delete_on_failed_import :
    runWithFailingImport.1 = Except.error (PulpErr.clientError "import failed") ∧
      Event.importUpload "repo1" "upload-1" "erratum" [] none ∈ runWithFailingImport.2 ∧
      runWithFailingImport.2.all (fun e =>
        match e with
        | Event.deleteUpload _ _ => false
        | _ => true) = true :=
  ⟨rfl, by decide, by decide⟩

/-- C3 (amended): the upload-slot delete is issued iff the import step
succeeded (on import failure the cleanup callback never runs), and the
delete step is fire-and-forget: its outcome cannot reach the composed
result, which is the import future itself — any two clients agreeing on
request-upload, byte-upload and import produce identical results and
traces no matter what their delete call does. -/
theorem upload_then_import_delete_best_effort :
    ∀ (c : Client) (repo : Repository) (file_obj : Option FileObj)
      (name type_id : String) (ukf : Option (Option Descriptor → Config))
      (umf : Option (Option Descriptor → Option Config)),
      ((Repository.upload_then_import (some c) repo file_obj name type_id
            ukf umf).1.isOk = true ↔
        ∃ uid nm, Event.deleteUpload uid nm ∈
          (Repository.upload_then_import (some c) repo file_obj name type_id
            ukf umf).2) ∧
      (∀ c' : Client,
        c'.requestUpload = c.requestUpload →
        c'.doUploadFile = c.doUploadFile →
        c'.doImport = c.doImport →
        Repository.upload_then_import (some c') repo file_obj name type_id ukf umf =
          Repository.upload_then_import (some c) repo file_obj name type_id ukf umf) := by
  intro c repo file_obj name type_id ukf umf
  constructor
  · cases hru : c.requestUpload name with
    | error e => simp [Repository.upload_then_import, hru]
    | ok upload =>
        cases file_obj with
        | none =>
            cases him : c.doImport repo.id upload.upload_id type_id
                ((ukf.getD (fun _ => [])) none) ((umf.getD (fun _ => none)) none) with
            | error e => simp [Repository.upload_then_import, hru, him]
            | ok res => simp [Repository.upload_then_import, hru, him]
        | some f =>
            cases huf : c.doUploadFile upload.upload_id f name with
            | error e => simp [Repository.upload_then_import, hru, huf]
            | ok d =>
                cases him : c.doImport repo.id upload.upload_id type_id
                    ((ukf.getD (fun _ => [])) (some d))
                    ((umf.getD (fun _ => none)) (some d)) with
                | error e => simp [Repository.upload_then_import, hru, huf, him]
                | ok res => simp [Repository.upload_then_import, hru, huf, him]
  · intro c' h1 h2 h3
    simp only [Repository.upload_then_import, h1, h2, h3]

/-- C3 witness: a failing delete call leaves the composed result and call
sequence identical to those of a client whose delete succeeds. -/
theorem upload_then_import_delete_best_effort_witness :
    Repository.upload_then_import (some deleteFailClient) { id := "r" }
        none "n" "t" none none =
      Repository.upload_then_import (some okClient) { id := "r" }
        none "n" "t" none none :=
  (upload_then_import_delete_best_effort okClient { id := "r" } none "n" "t"
      none none).2 deleteFailClient rfl rfl rfl

/-- C8: in every upload-then-import chain invoked with no file, no
byte-upload call is ever issued, and any import request built carries the
unit key and metadata derived by applying the caller's derivation functions
to `None`. -/
theorem upload_no_file_no_byte_upload :
    ∀ (c : Client) (repo : Repository) (name type_id : String)
      (ukf : Option (Option Descriptor → Config))
      (umf : Option (Option Descriptor → Option Config)),
      (∀ uid nm, Event.uploadFile uid nm ∉
        (Repository.upload_then_import (some c) repo none name type_id ukf umf).2) ∧
      (∀ rid uid tid k m,
        Event.importUpload rid uid tid k m ∈
          (Repository.upload_then_import (some c) repo none name type_id ukf umf).2 →
        k = (ukf.getD (fun _ => [])) none ∧
          m = (umf.getD (fun _ => none)) none) := by
  intro c repo name type_id ukf umf
  cases hru : c.requestUpload name with
  | error e =>
      constructor
      · intro uid nm
        simp [Repository.upload_then_import, hru]
      · intro rid uid tid k m hm
        simp [Repository.upload_then_import, hru] at hm
  | ok upload =>
      cases him : c.doImport repo.id upload.upload_id type_id
          ((ukf.getD (fun _ => [])) none) ((umf.getD (fun _ => none)) none) with
      | error e =>
          constructor
          · intro uid nm
            simp [Repository.upload_then_import, hru, him]
          · intro rid uid tid k m hm
            simp [Repository.upload_then_import, hru, him] at hm
            exact ⟨hm.2.2.2.1, hm.2.2.2.2⟩
      | ok res =>
          constructor
          · intro uid nm
            simp [Repository.upload_then_import, hru, him]
          · intro rid uid tid k m hm
            simp [Repository.upload_then_import, hru, him] at hm
            exact ⟨hm.2.2.2.1, hm.2.2.2.2⟩

/-- C8 witness: a concrete no-file run issues no byte upload, and the
unit key of its import request records that the derivation function
received `None`. -/
theorem upload_no_file_no_byte_upload_witness :
    Event.uploadFile "upload-1" "payload" ∉
        (Repository.upload_then_import (some okClient) { id := "r" } none
          "payload" "rpm" (some probeKeyFn) none).2 ∧
      [("saw_file", RawVal.bool false)] = probeKeyFn none := by
  have h := upload_no_file_no_byte_upload okClient { id := "r" } "payload" "rpm"
    (some probeKeyFn) none
  refine ⟨h.1 "upload-1" "payload", ?_⟩
  exact (h.2 "r" "upload-1" "rpm" [("saw_file", RawVal.bool false)] none
    (by decide)).1

/-- C9: at the pre-publish hook point, publish behaves exactly as a
hook-free publish run with the adopted options, where the adopted options
are the first non-None extension return value, or the original options when
every extension returns None; the adopted options determine the distributor
configuration payload and are the ones handed to the post-publish hook. -/
theorem pre_publish_first_non_none_return :
    ∀ (c : Client) (hooks : List PrePublishHook) (repo : Repository)
      (options : PublishOptions),
      Repository.publish (some c) hooks repo options
          = Repository.publish (some c) [] repo
              ((((hooks.map (fun h => h repo options)).filterMap
                  (fun r => r)).head?).getD options) ∧
        ((∀ h ∈ hooks, h repo options = none) →
          Repository.publish (some c) hooks repo options
            = Repository.publish (some c) [] repo options) ∧
        (∀ o : PublishOptions,
          ((hooks.map (fun h => h repo options)).filterMap
              (fun r => r)).head? = some o →
          Repository.publish (some c) hooks repo options
            = Repository.publish (some c) [] repo o) ∧
        (Repository.publish (some c) hooks repo options).2.head?
            = some (Event.publishDistributors repo.id
                ((Repository.publishToPublish repo
                    ((((hooks.map (fun h => h repo options)).filterMap
                        (fun r => r)).head?).getD options)).map
                  (fun p => (p.1.id, p.2)))) ∧
        (∀ tasks : List Task,
          c.publishRepository repo.id
              ((Repository.publishToPublish repo
                  ((((hooks.map (fun h => h repo options)).filterMap
                      (fun r => r)).head?).getD options)).map
                (fun p => (p.1.id, p.2))) = Except.ok tasks →
          Event.postPublishHook repo.id
              ((((hooks.map (fun h => h repo options)).filterMap
                  (fun r => r)).head?).getD options)
            ∈ (Repository.publish (some c) hooks repo options).2) := by
  intro c hooks repo options
  refine ⟨rfl, ?_, ?_, ?_, ?_⟩
  · intro hall
    have hnil : (hooks.map (fun h => h repo options)).filterMap (fun r => r) = [] := by
      rw [List.filterMap_eq_nil_iff]
      intro a ha
      rcases List.mem_map.mp ha with ⟨h, hh, rfl⟩
      exact hall h hh
    have : ((((hooks.map (fun h => h repo options)).filterMap
        (fun r => r)).head?).getD options) = options := by
      rw [hnil]; rfl
    calc Repository.publish (some c) hooks repo options
        = Repository.publish (some c) [] repo
            ((((hooks.map (fun h => h repo options)).filterMap
                (fun r => r)).head?).getD options) := rfl
      _ = Repository.publish (some c) [] repo options := by rw [this]
  · intro o ho
    have : ((((hooks.map (fun h => h repo options)).filterMap
        (fun r => r)).head?).getD options) = o := by
      rw [ho]; rfl
    calc Repository.publish (some c) hooks repo options
        = Repository.publish (some c) [] repo
            ((((hooks.map (fun h => h repo options)).filterMap
                (fun r => r)).head?).getD options) := rfl
      _ = Repository.publish (some c) [] repo o := by rw [this]
  · cases hpub : c.publishRepository repo.id
        ((Repository.publishToPublish repo
            ((((hooks.map (fun h => h repo options)).filterMap
                (fun r => r)).head?).getD options)).map
          (fun p => (p.1.id, p.2))) with
    | error e => simp only [Repository.publish, hpub]; rfl
    | ok tasks => simp only [Repository.publish, hpub]; rfl
  · intro tasks hpub
    simp only [Repository.publish, hpub]
    simp

/-- C9 witness: with one silent extension followed by two replacing ones,
publish adopts the first replacement and ignores the rest. -/
theorem pre_publish_first_non_none_return_witness :
    Repository.publish (some okClient) [hookNone, hookForce, hookOrigin]
        pubRepo {}
      = Repository.publish (some okClient) [] pubRepo { force := some true } := by
  have h := pre_publish_first_non_none_return okClient
    [hookNone, hookForce, hookOrigin] pubRepo {}
  exact h.2.2.1 { force := some true } (by decide)

/-- C5 helper: `mutable_notes` evaluates to the concatenation of one
optional entry per mutable note field, each present exactly when its raw
value is present in the encoded repository. -/
theorem mutable_notes_eq (r : Repository) :
    Repository.mutable_notes r =
      optEntry "product_versions" (lookup r.toData "notes.product_versions") ++
        optEntry "include_in_download_service"
          (lookup r.toData "notes.include_in_download_service") ++
        optEntry "include_in_download_service_preview"
          (lookup r.toData "notes.include_in_download_service_preview") := by
  have hfields : Repository.mutable_note_fields =
      [⟨"product_versions", some "notes.product_versions", true⟩,
       ⟨"include_in_download_service",
        some "notes.include_in_download_service", true⟩,
       ⟨"include_in_download_service_preview",
        some "notes.include_in_download_service_preview", true⟩] := by decide
  rcases h1 : lookup r.toData "notes.product_versions" with _ | v1 <;>
    rcases h2 : lookup r.toData "notes.include_in_download_service" with _ | v2 <;>
      rcases h3 : lookup r.toData "notes.include_in_download_service_preview"
          with _ | v3 <;>
        (simp only [Repository.mutable_notes, hfields, List.foldl_cons,
          List.foldl_nil, h1, h2, h3, optEntry]; rfl)

/-- C5: the partial-update payload `_mutable_notes` only ever contains keys
of declared mutable note fields, each bound to the raw value actually
present in the encoded repository — no immutable or non-note field can
appear; and the declared mutable note fields are exactly
`product_versions`, `include_in_download_service` and
`include_in_download_service_preview`. -/
theorem mutable_notes_only_mutable_note_fields :
    Repository.mutable_note_fields.map FieldDesc.name
        = ["product_versions", "include_in_download_service",
           "include_in_download_service_preview"] ∧
      ∀ (r : Repository) (k : String) (v : NVal),
        (k, v) ∈ Repository.mutable_notes r →
        ∃ fld ∈ Repository.mutable_note_fields,
          fld.pulpField = some ("notes." ++ k) ∧
            lookup r.toData ("notes." ++ k) = some v := by
  have mem_optEntry : ∀ {k k' : String} {v : NVal} {o : Option NVal},
      (k, v) ∈ optEntry k' o → k = k' ∧ o = some v := by
    intro k k' v o h
    cases o with
    | none => exact absurd h (by simp [optEntry])
    | some w =>
        simp only [optEntry, List.mem_singleton, Prod.mk.injEq] at h
        exact ⟨h.1, by rw [h.2]⟩
  refine ⟨by decide, ?_⟩
  intro r k v hmem
  rw [mutable_notes_eq] at hmem
  rcases List.mem_append.mp hmem with hAB | hC
  · rcases List.mem_append.mp hAB with hA | hB
    · obtain ⟨rfl, h⟩ := mem_optEntry hA
      exact ⟨⟨"product_versions", some "notes.product_versions", true⟩,
        by decide, rfl, h⟩
    · obtain ⟨rfl, h⟩ := mem_optEntry hB
      exact ⟨⟨"include_in_download_service",
        some "notes.include_in_download_service", true⟩, by decide, rfl, h⟩
  · obtain ⟨rfl, h⟩ := mem_optEntry hC
    exact ⟨⟨"include_in_download_service_preview",
      some "notes.include_in_download_service_preview", true⟩, by decide, rfl, h⟩

/-- C5 witness: a concrete repository's payload contains
`product_versions`, which is a declared mutable note field with its raw
value present in the encoding. -/
theorem mutable_notes_only_mutable_note_fields_witness :
    ∃ fld ∈ Repository.mutable_note_fields,
      fld.pulpField = some ("notes." ++ "product_versions") ∧
        lookup pvRepo.toData ("notes." ++ "product_versions")
          = some (NVal.leaf (RawVal.strList ["1.0"])) := by
  apply mutable_notes_only_mutable_note_fields.2 pvRepo "product_versions"
    (NVal.leaf (RawVal.strList ["1.0"]))
  have h : Repository.mutable_notes pvRepo
      = [("product_versions", NVal.leaf (RawVal.strList ["1.0"])),
         ("include_in_download_service", NVal.leaf (RawVal.str "False")),
         ("include_in_download_service_preview", NVal.leaf (RawVal.str "False"))] := rfl
  rw [h]
  exact List.Mem.head _

/-- Anything `_distributors_by_id` returns was in the list and has the
requested id (for any fold accumulator). -/
theorem byId_foldl_some {did : String} :
    ∀ (ds : List Distributor) (acc : Option Distributor) (d : Distributor),
      ds.foldl (fun acc x => if x.id = did then some x else acc) acc = some d →
      (d ∈ ds ∧ d.id = did) ∨ acc = some d := by
  intro ds
  induction ds with
  | nil => exact fun acc d h => Or.inr h
  | cons e rest ih =>
      intro acc d h
      rw [List.foldl_cons] at h
      rcases ih _ d h with hmem | hacc
      · exact Or.inl ⟨List.mem_cons_of_mem _ hmem.1, hmem.2⟩
      · by_cases he : e.id = did
        · rw [if_pos he] at hacc
          injection hacc with h'
          exact Or.inl ⟨h' ▸ List.mem_cons_self e rest, h' ▸ he⟩
        · rw [if_neg he] at hacc
          exact Or.inr hacc

/-- The fold of `_distributors_by_id` leaves the accumulator untouched when
nothing in the list carries the requested id. -/
theorem byId_foldl_const {did : String} :
    ∀ (ds : List Distributor) (acc : Option Distributor),
      (∀ x ∈ ds, x.id ≠ did) →
      ds.foldl (fun acc x => if x.id = did then some x else acc) acc = acc := by
  intro ds
  induction ds with
  | nil => exact fun acc _ => rfl
  | cons e rest ih =>
      intro acc h
      rw [List.foldl_cons, if_neg (h e (List.mem_cons_self e rest))]
      exact ih acc (fun x hx => h x (List.mem_cons_of_mem e hx))

/-- With distinct distributor ids, `_distributors_by_id` finds each member
under its own id. -/
theorem byId_mem_nodup :
    ∀ {ds : List Distributor}, (ds.map Distributor.id).Nodup →
      ∀ {d : Distributor}, d ∈ ds →
        Repository.distributorsById ds d.id = some d := by
  intro ds
  induction ds with
  | nil => intro _ d hd; cases hd
  | cons e rest ih =>
      intro hnd d hd
      rw [List.map_cons, List.nodup_cons] at hnd
      unfold Repository.distributorsById
      rw [List.foldl_cons]
      rcases List.mem_cons.mp hd with rfl | hdrest
      · rw [if_pos rfl]
        apply byId_foldl_const
        intro x hx hxid
        exact hnd.1 (List.mem_map.mpr ⟨x, hx, hxid⟩)
      · have hne : ¬(e.id = d.id) := by
          intro hcontra
          exact hnd.1 (hcontra ▸ List.mem_map.mpr ⟨d, hdrest, rfl⟩)
        rw [if_neg hne]
        exact ih hnd.2 hdrest

/-- With distinct distributor ids, the by-id lookup is exactly list
membership at the requested id. -/
theorem byId_eq_some_iff {ds : List Distributor}
    (hnd : (ds.map Distributor.id).Nodup) {did : String} {d : Distributor} :
    Repository.distributorsById ds did = some d ↔ d ∈ ds ∧ d.id = did := by
  constructor
  · intro h
    rcases byId_foldl_some ds none d h with hmem | hacc
    · exact hmem
    · exact Option.noConfusion hacc
  · rintro ⟨hmem, rfl⟩
    exact byId_mem_nodup hnd hmem

/-- The by-id lookup misses iff nothing in the list carries the id. -/
theorem byId_eq_none_iff {ds : List Distributor} {did : String} :
    Repository.distributorsById ds did = none ↔ ∀ d ∈ ds, d.id ≠ did := by
  constructor
  · intro h d hd hid
    have hsome : ∀ (ds : List Distributor) (acc : Option Distributor),
        (∃ x ∈ ds, x.id = did) ∨ acc.isSome = true →
        (ds.foldl (fun acc x => if x.id = did then some x else acc) acc).isSome
          = true := by
      intro ds
      induction ds with
      | nil =>
          intro acc h
          rcases h with ⟨x, hx, _⟩ | h
          · cases hx
          · exact h
      | cons e rest ih =>
          intro acc h
          rw [List.foldl_cons]
          rcases h with ⟨x, hx, hxid⟩ | hacc
          · rcases List.mem_cons.mp hx with rfl | hxrest
            · exact ih _ (Or.inr (by rw [if_pos hxid]; rfl))
            · exact ih _ (Or.inl ⟨x, hxrest, hxid⟩)
          · refine ih _ (Or.inr ?_)
            by_cases he : e.id = did
            · rw [if_pos he]; rfl
            · rw [if_neg he]; exact hacc
    have := hsome ds none (Or.inl ⟨d, hd, hid⟩)
    rw [show Repository.distributorsById ds did
        = ds.foldl (fun acc x => if x.id = did then some x else acc) none from rfl]
      at h
    rw [h] at this
    exact Bool.noConfusion this
  · intro h
    exact byId_foldl_const ds none h

/-- A permutation with distinct ids leaves the by-id lookup unchanged. -/
theorem byId_perm {ds ds' : List Distributor} (hperm : List.Perm ds ds')
    (hnd : (ds.map Distributor.id).Nodup) (did : String) :
    Repository.distributorsById ds' did = Repository.distributorsById ds did := by
  have hnd' : (ds'.map Distributor.id).Nodup :=
    ((hperm.map Distributor.id).nodup_iff).mp hnd
  cases h : Repository.distributorsById ds did with
  | some d =>
      have hd := (byId_eq_some_iff hnd).mp h
      exact (byId_eq_some_iff hnd').mpr ⟨hperm.mem_iff.mp hd.1, hd.2⟩
  | none =>
      have hno := byId_eq_none_iff.mp h
      exact byId_eq_none_iff.mpr (fun d hd => hno d (hperm.mem_iff.mpr hd))

/-- Mapping the distributor id over a filterMap whose hits carry the
candidate id yields a sublist of the candidate list. -/
theorem filterMap_fst_id_sublist {l : List String}
    {g : String → Option (Distributor × Config)}
    (h : ∀ c p, g c = some p → p.1.id = c) :
    List.Sublist ((l.filterMap g).map (fun p => p.1.id)) l := by
  induction l with
  | nil => simp
  | cons c rest ih =>
      cases hg : g c with
      | none =>
          rw [List.filterMap_cons, hg]
          exact ih.cons c
      | some p =>
          rw [List.filterMap_cons, hg, List.map_cons, h c p hg]
          exact ih.cons₂ c

/-- C2: with distinct distributor ids, publish selects exactly the
repository's distributors whose ids are on the fixed allow-list, minus the
docker web distributor exactly when `origin_only` is truthy; the selected
ids appear in allow-list order (a sublist of the allow-list), the selection
is invariant under reordering of the input distributors list, and it is
precisely the payload of the outgoing publish call. -/
theorem publish_selects_allowlist_order :
    ∀ (repo : Repository) (options : PublishOptions),
      (repo.distributors.map Distributor.id).Nodup →
      (∀ d : Distributor,
          d ∈ (Repository.publishToPublish repo options).map Prod.fst ↔
            d ∈ repo.distributors ∧ d.id ∈ Repository.PUBLISH_DISTRIBUTORS ∧
              ¬(d.id = "docker_web_distributor_name_cli" ∧
                optTruthy options.origin_only = true)) ∧
        List.Sublist
          (((Repository.publishToPublish repo options).map Prod.fst).map
            Distributor.id)
          Repository.PUBLISH_DISTRIBUTORS ∧
        (∀ ds' : List Distributor, List.Perm repo.distributors ds' →
          Repository.publishToPublish { repo with distributors := ds' } options
            = Repository.publishToPublish repo options) ∧
        ("docker_web_distributor_name_cli" ∈
            ((Repository.publishToPublish repo options).map Prod.fst).map
              Distributor.id ↔
          (∃ d ∈ repo.distributors, d.id = "docker_web_distributor_name_cli") ∧
            optTruthy options.origin_only = false) ∧
        (∀ c : Client,
          (Repository.publish (some c) [] repo options).2.head?
            = some (Event.publishDistributors repo.id
                ((Repository.publishToPublish repo options).map
                  (fun p => (p.1.id, p.2))))) := by
  intro repo options hnd
  have hmem_iff : ∀ d : Distributor,
      d ∈ (Repository.publishToPublish repo options).map Prod.fst ↔
        d ∈ repo.distributors ∧ d.id ∈ Repository.PUBLISH_DISTRIBUTORS ∧
          ¬(d.id = "docker_web_distributor_name_cli" ∧
            optTruthy options.origin_only = true) := by
    intro d
    constructor
    · intro hd
      rcases List.mem_map.mp hd with ⟨p, hp, rfl⟩
      rcases List.mem_filterMap.mp hp with ⟨cand, hcand, hg⟩
      try dsimp only [] at hg
      cases hby : Repository.distributorsById repo.distributors cand with
      | none => simp only [hby] at hg; exact Option.noConfusion hg
      | some dist =>
          simp only [hby] at hg
          by_cases hskip : (decide (dist.id = "docker_web_distributor_name_cli")
              && optTruthy options.origin_only) = true
          · rw [if_pos hskip] at hg
            exact absurd hg (by simp)
          · rw [if_neg hskip] at hg
            injection hg with hg
            rcases byId_foldl_some _ none dist hby with ⟨hdm, hdid⟩ | habs
            · have hp1 : p.1 = dist := by rw [← hg]
              rw [hp1]
              refine ⟨hdm, by rw [hdid]; exact hcand, ?_⟩
              rintro ⟨hdock, htr⟩
              exact hskip (by
                rw [Bool.and_eq_true, decide_eq_true_eq]
                exact ⟨hdock, htr⟩)
            · exact Option.noConfusion habs
    · rintro ⟨hmem, hallow, hnoskip⟩
      apply List.mem_map.mpr
      refine ⟨(d, Repository.config_for_distributor d options), ?_, rfl⟩
      apply List.mem_filterMap.mpr
      refine ⟨d.id, hallow, ?_⟩
      simp only [byId_mem_nodup hnd hmem]
      rw [if_neg ?_]
      intro hskip
      rw [Bool.and_eq_true, decide_eq_true_eq] at hskip
      exact hnoskip hskip
  refine ⟨hmem_iff, ?_, ?_, ?_, ?_⟩
  · rw [List.map_map]
    unfold Repository.publishToPublish
    apply filterMap_fst_id_sublist
    intro c p hg
    try dsimp only [] at hg
    cases hby : Repository.distributorsById repo.distributors c with
    | none => simp only [hby] at hg; exact Option.noConfusion hg
    | some dist =>
        simp only [hby] at hg
        by_cases hskip : (decide (dist.id = "docker_web_distributor_name_cli")
            && optTruthy options.origin_only) = true
        · rw [if_pos hskip] at hg
          exact absurd hg (by simp)
        · rw [if_neg hskip] at hg
          injection hg with hg
          rcases byId_foldl_some _ none dist hby with ⟨_, hdid⟩ | habs
          · rw [← hg]; exact hdid
          · exact Option.noConfusion habs
  · intro ds' hperm
    have hby := byId_perm hperm hnd
    unfold Repository.publishToPublish
    apply List.filterMap_congr
    intro cand _
    simp only [hby cand]
  · constructor
    · intro hdock
      rcases List.mem_map.mp hdock with ⟨d, hd, hdid⟩
      have h := (hmem_iff d).mp hd
      refine ⟨⟨d, h.1, hdid⟩, ?_⟩
      cases htr : optTruthy options.origin_only with
      | false => rfl
      | true => exact absurd ⟨hdid, htr⟩ h.2.2
    · rintro ⟨⟨d, hdmem, hdid⟩, htr⟩
      apply List.mem_map.mpr
      refine ⟨d, (hmem_iff d).mpr ⟨hdmem, ?_, ?_⟩, hdid⟩
      · rw [hdid]; decide
      · rintro ⟨_, htru⟩
        rw [htr] at htru
        exact Bool.noConfusion htru
  · intro c
    cases hpub : c.publishRepository repo.id
        ((Repository.publishToPublish repo options).map (fun p => (p.1.id, p.2))) with
    | error e =>
        simp only [Repository.publish, List.map_nil, List.filterMap_nil,
          List.head?_nil, Option.getD_none, hpub]
        rfl
    | ok tasks =>
        simp only [Repository.publish, List.map_nil, List.filterMap_nil,
          List.head?_nil, Option.getD_none, hpub]
        rfl

/-- C2 witness: a repository listing its docker distributor before its yum
distributor still publishes in allow-list order, keeps the yum distributor
under `origin_only=True`, and drops the docker distributor exactly then. -/
theorem publish_selects_allowlist_order_witness :
    List.Sublist
        (((Repository.publishToPublish pubRepo {}).map Prod.fst).map
          Distributor.id)
        Repository.PUBLISH_DISTRIBUTORS ∧
      yumDist ∈ (Repository.publishToPublish pubRepo
          { origin_only := some true }).map Prod.fst ∧
      "docker_web_distributor_name_cli" ∉
        ((Repository.publishToPublish pubRepo
            { origin_only := some true }).map Prod.fst).map Distributor.id := by
  have h1 := publish_selects_allowlist_order pubRepo {} (by decide)
  have h2 := publish_selects_allowlist_order pubRepo { origin_only := some true }
    (by decide)
  refine ⟨h1.2.1, ?_, ?_⟩
  · exact (h2.1 yumDist).mpr ⟨by decide, by decide, by decide⟩
  · intro hmem
    rcases (h2.2.2.2.1).mp hmem with ⟨_, htr⟩
    exact absurd htr (by decide)

end PubtoolsPulplib
